import Mathlib

/-!
Shallow embedding of opencompass `opencompass/runners/local.py` (`LocalRunner`).

The slot table `gpus` is a numpy array of length `max(all_gpu_ids) + 1`
(or length 0 when no gpu ids are visible), holding `max_workers_per_gpu`
at each visible id and `0` elsewhere.  We embed it as a function
`Nat → Nat` together with the explicit length `poolLen`.
-/

namespace LocalRunner

/-- The initial slot table: `gpus = np.zeros(max(all_gpu_ids)+1); gpus[all_gpu_ids] = max_workers_per_gpu`.
Entries at indices outside `all_gpu_ids` are `0`. -/
def initGpus (all_gpu_ids : List Nat) (max_workers_per_gpu : Nat) : Nat → Nat :=
  fun i => if i ∈ all_gpu_ids then max_workers_per_gpu else 0

/-- `len(gpus)`: `max(all_gpu_ids) + 1` when some id is visible, else `0`
(the `np.array([])` branch). -/
def poolLen (all_gpu_ids : List Nat) : Nat :=
  match all_gpu_ids with
  | [] => 0
  | _ => all_gpu_ids.foldl max 0 + 1

/-- `sum(gpus > 0)`: the number of indices below the array length whose free
capacity is positive. -/
def freeCount (g : Nat → Nat) (len : Nat) : Nat :=
  ((List.range len).filter fun i => 0 < g i).length

/-- `np.where(gpus)[0][:num_gpus]`: the first `n` indices (in ascending order)
with positive free capacity. -/
def grantIds (g : Nat → Nat) (len n : Nat) : List Nat :=
  ((List.range len).filter fun i => 0 < g i).take n

/-- `gpus[gpu_ids] -= 1`: pointwise decrement at the given (distinct) indices. -/
def decAt (ids : List Nat) (g : Nat → Nat) : Nat → Nat :=
  fun i => if i ∈ ids then g i - 1 else g i

/-- `gpus[gpu_ids] += 1`: pointwise increment at the given (distinct) indices. -/
def incAt (ids : List Nat) (g : Nat → Nat) : Nat → Nat :=
  fun i => if i ∈ ids then g i + 1 else g i

/-- The admission assertion `assert len(gpus) >= num_gpus` as a boolean. -/
def lenAssert (len n : Nat) : Bool :=
  decide (n ≤ len)

/-- The polling condition `sum(gpus > 0) >= num_gpus` as a boolean. -/
def pollOk (g : Nat → Nat) (len n : Nat) : Bool :=
  decide (n ≤ freeCount g len)

/-- Total fixed slot capacity across all ids: the sum of the initial slot table. -/
def totalCapacity (all_gpu_ids : List Nat) (max_workers_per_gpu : Nat) : Nat :=
  ((List.range (poolLen all_gpu_ids)).map (initGpus all_gpu_ids max_workers_per_gpu)).sum

/-- The backoff polling loop of `submit`, with explicit fuel: each failed poll
models one `time.sleep(1)` and retry.  Fuel `1` means the very first poll. -/
def acquireLoop (g : Nat → Nat) (len n : Nat) : Nat → Option (List Nat × (Nat → Nat))
  | 0 => none
  | fuel + 1 =>
    if pollOk g len n then some (grantIds g len n, decAt (grantIds g len n) g)
    else acquireLoop g len n fuel

/-- A state of the scheduler's shared resource accounting: the slot table plus
the multiset (as a list) of id-sets currently granted to in-flight jobs. -/
structure Pool where
  gpus : Nat → Nat
  held : List (List Nat)

/-- The number of in-flight jobs currently holding a claim on id `i`. -/
def heldCount (held : List (List Nat)) (i : Nat) : Nat :=
  held.countP fun c => decide (i ∈ c)

/-- The pool at construction time: the initial slot table and no claims held. -/
def initPool (all_gpu_ids : List Nat) (max_workers_per_gpu : Nat) : Pool :=
  ⟨initGpus all_gpu_ids max_workers_per_gpu, []⟩

/-- One step of the resource accounting: a successful poll of the acquire loop
(decrementing the first `n` free ids and recording the claim), or a release of
one held claim (`gpus[gpu_ids] += 1`). -/
inductive Step (len : Nat) : Pool → Pool → Prop
  | acquire (s : Pool) (n : Nat) (hfeas : n ≤ freeCount s.gpus len) :
      Step len s ⟨decAt (grantIds s.gpus len n) s.gpus, grantIds s.gpus len n :: s.held⟩
  | release (s : Pool) (c : List Nat) (h₁ h₂ : List (List Nat))
      (hheld : s.held = h₁ ++ c :: h₂) :
      Step len s ⟨incAt c s.gpus, h₁ ++ h₂⟩

/-- States reachable from a given initial pool by acquire/release steps. -/
inductive Reachable (len : Nat) (init : Pool) : Pool → Prop
  | refl : Reachable len init init
  | step {s t : Pool} : Reachable len init s → Step len s t → Reachable len init t

/-- The accounting invariant: free capacity plus the number of outstanding
claims on an id always equals that id's initial capacity. -/
def Inv (init : Nat → Nat) (s : Pool) : Prop :=
  ∀ i, s.gpus i + heldCount s.held i = init i

lemma grantIds_pos {g : Nat → Nat} {len n i : Nat} (h : i ∈ grantIds g len n) :
    0 < g i := by
  have h' := List.mem_of_mem_take h
  exact of_decide_eq_true (List.mem_filter.mp h').2

lemma heldCount_cons (c : List Nat) (held : List (List Nat)) (i : Nat) :
    heldCount (c :: held) i = (if i ∈ c then 1 else 0) + heldCount held i := by
  by_cases hi : i ∈ c
  · simp [heldCount, List.countP_cons, hi, Nat.add_comm]
  · simp [heldCount, List.countP_cons, hi]

lemma heldCount_append (h₁ h₂ : List (List Nat)) (i : Nat) :
    heldCount (h₁ ++ h₂) i = heldCount h₁ i + heldCount h₂ i := by
  simp [heldCount, List.countP_append]

lemma inv_step {len : Nat} {init : Nat → Nat} {s t : Pool}
    (hinv : Inv init s) (hstep : Step len s t) : Inv init t := by
  cases hstep with
  | acquire n hfeas =>
    intro i
    have hs := hinv i
    by_cases hi : i ∈ grantIds s.gpus len n
    · have hpos : 0 < s.gpus i := grantIds_pos hi
      simp only [decAt, heldCount_cons, hi, if_pos]
      omega
    · simp only [decAt, heldCount_cons, hi, if_neg, not_false_iff]
      omega
  | release c h₁ h₂ hheld =>
    intro i
    have hs := hinv i
    rw [hheld] at hs
    rw [heldCount_append, heldCount_cons] at hs
    by_cases hi : i ∈ c
    · simp only [incAt, hi, if_pos, heldCount_append]
      simp only [hi, if_pos] at hs
      omega
    · simp only [incAt, hi, if_neg, not_false_iff, heldCount_append]
      simp only [hi, if_neg, not_false_iff] at hs
      omega

lemma reachable_inv {all_gpu_ids : List Nat} {m len : Nat} {s : Pool}
    (h : Reachable len (initPool all_gpu_ids m) s) :
    Inv (initGpus all_gpu_ids m) s := by
  induction h with
  | refl => intro i; simp [initPool, heldCount]
  | step _ hstep ih => exact inv_step ih hstep

/-- Claim C1: in every reachable state of a run, each visible id's
free-capacity counter is at most the capacity fixed at construction
(`max_workers_per_gpu`) — and, the counters being natural numbers, never below
zero — and the number of jobs concurrently holding a claim on that id never
exceeds that fixed capacity. -/
theorem slot_table_invariant (all_gpu_ids : List Nat) (max_workers_per_gpu : Nat)
    (s : Pool)
    (h : Reachable (poolLen all_gpu_ids) (initPool all_gpu_ids max_workers_per_gpu) s)
    (i : Nat) (hvis : i ∈ all_gpu_ids) :
    s.gpus i ≤ max_workers_per_gpu ∧
    heldCount s.held i ≤ max_workers_per_gpu := by
  have hs := reachable_inv h i
  rw [initGpus, if_pos hvis] at hs
  omega

theorem slot_table_invariant_witness :
    (initPool [0, 1] 1).gpus 0 ≤ 1 ∧ heldCount (initPool [0, 1] 1).held 0 ≤ 1 :=
  slot_table_invariant [0, 1] 1 (initPool [0, 1] 1) Reachable.refl 0
    (by decide)

/-- Claim C5: from every slot table (including the empty pool of length 0),
an acquire with count 0 passes the admission assertion, succeeds at the very
first poll of the backoff loop (fuel 1: it never sleeps and never retries),
grants the empty id set, and decrements no slot counter. -/
theorem acquire_zero_immediate (g : Nat → Nat) (len : Nat) :
    lenAssert len 0 = true ∧
    acquireLoop g len 0 1 = some ([], decAt [] g) ∧
    grantIds g len 0 = [] ∧
    (∀ i, decAt [] g i = g i) := by
  refine ⟨by simp [lenAssert], ?_, ?_, ?_⟩
  · simp [acquireLoop, pollOk, grantIds]
  · simp [grantIds]
  · intro i
    simp [decAt]

lemma filter_pos_length_le_sum (g : Nat → Nat) (l : List Nat) :
    (l.filter fun i => 0 < g i).length ≤ (l.map g).sum := by
  induction l with
  | nil => simp
  | cons a l ih =>
    simp only [List.filter_cons, List.map_cons, List.sum_cons]
    by_cases ha : 0 < g a
    · simp [ha]
      omega
    · simp [ha]
      omega

lemma filter_pos_length_mono (g₁ g₂ : Nat → Nat) (hg : ∀ i, 0 < g₁ i → 0 < g₂ i)
    (l : List Nat) :
    (l.filter fun i => 0 < g₁ i).length ≤ (l.filter fun i => 0 < g₂ i).length := by
  induction l with
  | nil => simp
  | cons a l ih =>
    simp only [List.filter_cons]
    by_cases ha : 0 < g₁ a
    · have hb := hg a ha
      simp [ha, hb]
      omega
    · by_cases hb : 0 < g₂ a
      · simp [ha, hb]
        omega
      · simp [ha, hb]
        exact ih

lemma freeCount_le_totalCapacity (all_gpu_ids : List Nat) (m : Nat) {s : Pool}
    (h : Reachable (poolLen all_gpu_ids) (initPool all_gpu_ids m) s) :
    freeCount s.gpus (poolLen all_gpu_ids) ≤ totalCapacity all_gpu_ids m := by
  have hinv := reachable_inv h
  have h1 : freeCount s.gpus (poolLen all_gpu_ids)
      ≤ freeCount (initGpus all_gpu_ids m) (poolLen all_gpu_ids) :=
    filter_pos_length_mono _ _ (fun i hi => by have := hinv i; omega) _
  have h2 := filter_pos_length_le_sum (initGpus all_gpu_ids m)
    (List.range (poolLen all_gpu_ids))
  exact le_trans h1 h2

/-- Claim C3 counterexample: with visible ids 0 and 2 and capacity 1 per id,
a job demanding 3 slots exceeds the total fixed capacity (2), yet the
admission assertion passes (the slot array has length 3 = max id + 1), so the
job enters the backoff polling loop, whose condition is false. -/
theorem admission_over_demand_cex :
    totalCapacity [0, 2] 1 < 3 ∧
    lenAssert (poolLen [0, 2]) 3 = true ∧
    pollOk (initPool [0, 2] 1).gpus (poolLen [0, 2]) 3 = false := by
  decide

/-- Claim C3 amended: the admission assertion compares the demand against the
slot-array length (max visible id + 1), not against total fixed capacity; it
fails exactly when the demand exceeds that length.  A job whose demand exceeds
total fixed capacity but not the array length passes admission, and the
polling condition is then false in every reachable state, so it polls forever. -/
theorem admission_checks_array_length (all_gpu_ids : List Nat) (m n : Nat)
    (s : Pool)
    (hs : Reachable (poolLen all_gpu_ids) (initPool all_gpu_ids m) s)
    (hover : totalCapacity all_gpu_ids m < n) :
    (lenAssert (poolLen all_gpu_ids) n = false ↔ poolLen all_gpu_ids < n) ∧
    pollOk s.gpus (poolLen all_gpu_ids) n = false := by
  constructor
  · simp only [lenAssert, decide_eq_false_iff_not]
    exact not_le
  · have hle := freeCount_le_totalCapacity all_gpu_ids m hs
    simp only [pollOk, decide_eq_false_iff_not]
    omega

theorem admission_checks_array_length_witness :
    (lenAssert (poolLen [0, 2]) 3 = false ↔ poolLen [0, 2] < 3) ∧
    pollOk (initPool [0, 2] 1).gpus (poolLen [0, 2]) 3 = false :=
  admission_checks_array_length [0, 2] 1 3 (initPool [0, 2] 1) Reachable.refl
    (by decide)

/-- A task as the runner sees it: its `name` and its `num_gpus` demand. -/
structure Task where
  name : String
  num_gpus : Nat

/-- The join of the granted ids: `','.join(str(i) for i in gpu_ids)`. -/
def joinComma (gpu_ids : List Nat) : String :=
  String.intercalate "," (gpu_ids.map toString)

/-- The command template built in `_launch`, unconditionally:
`tmpl = 'CUDA_VISIBLE_DEVICES=' + ','.join(str(i) for i in gpu_ids)` followed
by the task-command substitution point. -/
def cmdTemplate (gpu_ids : List Nat) : String :=
  "CUDA_VISIBLE_DEVICES=" ++ joinComma gpu_ids ++ " {task_cmd}"

/-- The template the spec's sentence describes, for comparison: bind the
granted ids into the visibility variable only when the demand is positive,
else resolve the command without setting that variable. -/
def claimedTemplate (num_gpus : Nat) (gpu_ids : List Nat) : String :=
  if 0 < num_gpus then cmdTemplate gpu_ids else "{task_cmd}"

/-- The environment one `_launch` call runs in: the child-process invocation
either returns an exit code (`some rc`) or raises (`none`), and the temp-file
deletion `os.remove` either succeeds (`true`) or raises (`false`). -/
structure ExecEnv where
  runResult : Option Int
  removeOk : Bool

/-- Observable effects of one `_launch` call: the returned
`(task_name, returncode)` pair (`none` when an exception propagated out of
`_launch` instead of returning), whether the non-zero-exit warning naming the
log path was logged, whether the temp config file was deleted, and the
resolved command template. -/
structure ExecOutcome where
  outcome : Option (String × Int)
  warned : Bool
  tmpRemoved : Bool
  cmd : String

/-- Shallow embedding of `LocalRunner._launch`: dump the config, build the
command from `cmdTemplate`, run the child synchronously, warn when
`result.returncode != 0`, then `os.remove` the temp file and return
`(task_name, result.returncode)`.  There is no try/finally: when
`subprocess.run` raises, the warning, the removal and the return are all
skipped; when `os.remove` raises, the warning has already happened but no
pair is returned. -/
def launchTask (task : Task) (gpu_ids : List Nat) (env : ExecEnv) : ExecOutcome :=
  let cmd := cmdTemplate gpu_ids
  match env.runResult with
  | none => ⟨none, false, false, cmd⟩
  | some rc =>
    if env.removeOk then ⟨some (task.name, rc), decide (rc ≠ 0), true, cmd⟩
    else ⟨none, decide (rc ≠ 0), false, cmd⟩

/-- Shallow embedding of the body of `submit` after a successful poll: acquire
(decrement the first `num_gpus` free ids), call `_launch`, then release
(`gpus[gpu_ids] += 1`) — but the release is not in a finally block, so when an
exception propagates out of `_launch` the increment is skipped and no result
is returned. -/
def submitRun (len : Nat) (task : Task) (g : Nat → Nat) (env : ExecEnv) :
    (Nat → Nat) × Option (String × Int) :=
  let gpu_ids := grantIds g len task.num_gpus
  let g₁ := decAt gpu_ids g
  match (launchTask task gpu_ids env).outcome with
  | none => (g₁, none)
  | some res => (incAt gpu_ids g₁, some res)

/-- A non-debug batch: each job is the built task, its granted ids, and its
execution environment; `executor.map` yields one worker result per job in
submission order. -/
def launchBatch (jobs : List (Task × List Nat × ExecEnv)) : List ExecOutcome :=
  jobs.map fun p => launchTask p.1 p.2.1 p.2.2

/-- The collected `status` of a non-debug batch: one `(name, exit code)` pair
per job in order, or `none` when consuming the worker results re-raises an
exception that escaped some worker. -/
def nondebugStatuses (jobs : List (Task × List Nat × ExecEnv)) :
    Option (List (String × Int)) :=
  (launchBatch jobs).mapM ExecOutcome.outcome

/-- The per-task data of the debug loop: the command resolved with the plain
template, and the (discarded) result of running it. -/
structure DebugEnv where
  cmd : String
  runResult : Int

/-- One iteration of the debug loop: run in-process when the command starts
with the interpreter name, else in a subprocess; either way the run's result
is discarded and `(task_name, 0)` is appended.  The boolean records which
branch ran. -/
def debugStep (task : Task) (env : DebugEnv) : (String × Int) × Bool :=
  ((task.name, 0), env.cmd.startsWith "python")

/-- The debug-mode `status` list: one appended pair per task, in order. -/
def debugStatuses (jobs : List (Task × DebugEnv)) : List (String × Int) :=
  jobs.map fun p => (debugStep p.1 p.2).1

/-- Claim C4 counterexample: one visible id of capacity 1; the job acquires it
and the child invocation raises inside `_launch`; the slot is never released:
after the failed submit the id's free-capacity counter is 0, not its initial
value 1. -/
theorem release_skipped_on_exception_cex :
    (submitRun 1 ⟨"job0", 1⟩ (initGpus [0] 1) ⟨none, true⟩).1 0 = 0 ∧
    initGpus [0] 1 0 = 1 := by
  decide

/-- Claim C4 amended: the granted ids are released exactly once whenever
`_launch` returns normally — on success and on a non-zero exit code the slot
table is restored pointwise — but when an exception propagates out of
`_launch` (the child invocation raises, or the temp-file removal raises) the
release is skipped and each granted id's counter stays one below its prior
value. -/
theorem release_on_normal_return_only (len : Nat) (task : Task) (g : Nat → Nat)
    (envR envE : ExecEnv) (rc : Int) (i j : Nat)
    (hrun : envR.runResult = some rc) (hrem : envR.removeOk = true)
    (hout : (launchTask task (grantIds g len task.num_gpus) envE).outcome = none)
    (hj : j ∈ grantIds g len task.num_gpus) :
    (submitRun len task g envR).1 i = g i ∧
    (submitRun len task g envE).1 j + 1 = g j := by
  constructor
  · simp only [submitRun, launchTask, hrun, hrem, if_true]
    by_cases hi : i ∈ grantIds g len task.num_gpus
    · have hpos := grantIds_pos hi
      simp only [incAt, decAt, hi, if_pos]
      omega
    · simp only [incAt, decAt, hi, if_neg, not_false_iff]
  · have hpos := grantIds_pos hj
    simp only [submitRun, hout]
    simp only [decAt, hj, if_pos]
    omega

theorem release_on_normal_return_only_witness :
    (submitRun 1 ⟨"job0", 1⟩ (initGpus [0] 1) ⟨some 7, true⟩).1 0 = initGpus [0] 1 0 ∧
    (submitRun 1 ⟨"job0", 1⟩ (initGpus [0] 1) ⟨none, true⟩).1 0 + 1 = initGpus [0] 1 0 :=
  release_on_normal_return_only 1 ⟨"job0", 1⟩ (initGpus [0] 1)
    ⟨some 7, true⟩ ⟨none, true⟩ 7 0 0 rfl rfl (by decide) (by decide)

/-- Claim C7 counterexample: when the child-process invocation raises, the temp
config file is not deleted (`os.remove` comes after `subprocess.run` with no
try/finally); and when the deletion itself fails, the exception propagates and
the job yields no outcome at all rather than an unchanged one. -/
theorem tmp_file_cleanup_cex :
    (launchTask ⟨"job1", 0⟩ [] ⟨none, true⟩).tmpRemoved = false ∧
    (launchTask ⟨"job1", 0⟩ [] ⟨some 0, false⟩).outcome = none := by
  decide

/-- Claim C7 amended: the temp config file is deleted exactly when the child
invocation returns normally and the deletion succeeds; when the invocation
raises, the file is left behind; when the deletion raises, the exception
propagates out of `_launch` and the job yields no reported outcome, though the
non-zero-exit warning, logged before the removal, still occurs. -/
theorem tmp_removed_iff (task : Task) (gpu_ids : List Nat) (env envF : ExecEnv)
    (rc : Int) (hr : envF.runResult = some rc) (hok : envF.removeOk = false) :
    ((launchTask task gpu_ids env).tmpRemoved = true ↔
      env.runResult.isSome = true ∧ env.removeOk = true) ∧
    (launchTask task gpu_ids envF).outcome = none ∧
    (launchTask task gpu_ids envF).warned = decide (rc ≠ 0) := by
  refine ⟨?_, ?_, ?_⟩
  · obtain ⟨r, ok⟩ := env
    cases r <;> cases ok <;> simp [launchTask]
  · simp [launchTask, hr, hok]
  · simp [launchTask, hr, hok]

theorem tmp_removed_iff_witness :
    ((launchTask ⟨"job2", 0⟩ [] ⟨some 3, true⟩).tmpRemoved = true ↔
      (ExecEnv.mk (some 3) true).runResult.isSome = true ∧
      (ExecEnv.mk (some 3) true).removeOk = true) ∧
    (launchTask ⟨"job2", 0⟩ [] ⟨some 3, false⟩).outcome = none ∧
    (launchTask ⟨"job2", 0⟩ [] ⟨some 3, false⟩).warned = decide ((3 : Int) ≠ 0) :=
  tmp_removed_iff ⟨"job2", 0⟩ [] ⟨some 3, true⟩ ⟨some 3, false⟩ 3 rfl rfl

/-- Claim C8 counterexample: a job with demand 0 is granted the empty id set,
yet its command template still sets the visibility variable — to the empty
string — instead of leaving it unset as the claim requires. -/
theorem cvd_always_bound_cex :
    cmdTemplate [] = "CUDA_VISIBLE_DEVICES= {task_cmd}" ∧
    claimedTemplate 0 [] = "{task_cmd}" ∧
    cmdTemplate [] ≠ claimedTemplate 0 [] := by
  refine ⟨rfl, rfl, ?_⟩
  decide

/-- Claim C8 amended: the visibility variable is bound unconditionally: the
resolved template always sets it to the comma-joined granted ids — exactly the
granted ids when the demand is positive, and the empty string (no visible
devices, rather than an unset variable) when the demand is 0, since zero
slots are granted. -/
theorem cvd_binding (g : Nat → Nat) (len num_gpus n₀ : Nat) (h0 : n₀ = 0) :
    cmdTemplate (grantIds g len num_gpus) =
      "CUDA_VISIBLE_DEVICES=" ++ joinComma (grantIds g len num_gpus) ++
        " {task_cmd}" ∧
    cmdTemplate (grantIds g len n₀) = "CUDA_VISIBLE_DEVICES= {task_cmd}" := by
  subst h0
  exact ⟨rfl, rfl⟩

theorem cvd_binding_witness :
    cmdTemplate (grantIds (initGpus [0] 1) 1 1) =
      "CUDA_VISIBLE_DEVICES=" ++ joinComma (grantIds (initGpus [0] 1) 1 1) ++
        " {task_cmd}" ∧
    cmdTemplate (grantIds (initGpus [0] 1) 1 0) =
      "CUDA_VISIBLE_DEVICES= {task_cmd}" :=
  cvd_binding (initGpus [0] 1) 1 1 0 rfl

/-- Claim C6: in non-debug mode, a job whose child exits with a non-zero code
is reported with its name paired with exactly that code, the warning
referencing the log path is the only extra effect (the job is executed once,
not retried), and position `k` of the batch's results depends only on the job
at position `k`, so one job's failure neither aborts nor alters the others. -/
theorem nonzero_exit_reported (task : Task) (gpu_ids : List Nat) (rc : Int)
    (hrc : rc ≠ 0) (jobs : List (Task × List Nat × ExecEnv)) (k : Nat) :
    (launchTask task gpu_ids ⟨some rc, true⟩).outcome = some (task.name, rc) ∧
    (launchTask task gpu_ids ⟨some rc, true⟩).warned = true ∧
    (launchBatch jobs)[k]? = (jobs[k]?).map fun p => launchTask p.1 p.2.1 p.2.2 := by
  refine ⟨rfl, ?_, ?_⟩
  · simp [launchTask, hrc]
  · simp [launchBatch]

theorem nonzero_exit_reported_witness :
    (launchTask ⟨"job3", 1⟩ [0] ⟨some 7, true⟩).outcome = some ("job3", 7) ∧
    (launchTask ⟨"job3", 1⟩ [0] ⟨some 7, true⟩).warned = true ∧
    (launchBatch [(⟨"job3", 1⟩, [0], ⟨some 7, true⟩)])[0]? =
      (([(⟨"job3", 1⟩, [0], ⟨some 7, true⟩)] :
          List (Task × List Nat × ExecEnv))[0]?).map
        fun p => launchTask p.1 p.2.1 p.2.2 :=
  nonzero_exit_reported ⟨"job3", 1⟩ [0] 7 (by decide)
    [(⟨"job3", 1⟩, [0], ⟨some 7, true⟩)] 0

/-- Claim C10: in debug mode every job's outcome is `(name, 0)` whatever the
result of running its command — in the in-process branch and in the
subprocess branch alike the run's result is discarded before the pair is
appended — so a job whose command fails is still reported as `(name, 0)`. -/
theorem debug_reports_zero (task : Task) (env : DebugEnv) :
    (debugStep task env).1 = (task.name, 0) ∧
    ∀ jobs : List (Task × DebugEnv),
      debugStatuses jobs = jobs.map fun p => (p.1.name, 0) := by
  refine ⟨rfl, ?_⟩
  intro jobs
  simp [debugStatuses, debugStep]

lemma nondebugStatuses_of_normal (jobs : List (Task × List Nat × ExecEnv))
    (hnorm : ∀ p ∈ jobs, p.2.2.runResult.isSome = true ∧ p.2.2.removeOk = true) :
    nondebugStatuses jobs =
      some (jobs.map fun p => (p.1.name, p.2.2.runResult.getD 0)) := by
  induction jobs with
  | nil => rfl
  | cons p ps ih =>
    obtain ⟨t, ids, env⟩ := p
    obtain ⟨hsome, hrem⟩ := hnorm _ (List.mem_cons_self _ _)
    dsimp only at hsome hrem
    obtain ⟨rc, hrc⟩ := Option.isSome_iff_exists.mp hsome
    have ih' := ih fun q hq => hnorm q (List.mem_cons_of_mem _ hq)
    have hout : (launchTask t ids env).outcome = some (t.name, rc) := by
      simp [launchTask, hrc, hrem]
    simp only [nondebugStatuses, launchBatch, List.map_cons, List.mapM_cons]
      at ih' ⊢
    rw [hout, ih']
    simp [hrc]

/-- Claim C2: when every worker's job handling returns normally, the non-debug
batch yields exactly one `(name, exit code)` pair per submitted job — the
status list is the per-job map of names to exit codes, its length equals the
number of jobs, and its names are exactly the submitted names in order — and
debug mode does the same unconditionally. -/
theorem one_outcome_per_job (jobs : List (Task × List Nat × ExecEnv))
    (hnorm : ∀ p ∈ jobs, p.2.2.runResult.isSome = true ∧ p.2.2.removeOk = true)
    (djobs : List (Task × DebugEnv)) :
    nondebugStatuses jobs =
      some (jobs.map fun p => (p.1.name, p.2.2.runResult.getD 0)) ∧
    (jobs.map fun p => (p.1.name, p.2.2.runResult.getD 0)).length = jobs.length ∧
    (jobs.map fun p => (p.1.name, p.2.2.runResult.getD 0)).map Prod.fst =
      (jobs.map fun p => p.1.name) ∧
    (debugStatuses djobs).length = djobs.length ∧
    (debugStatuses djobs).map Prod.fst = (djobs.map fun p => p.1.name) := by
  refine ⟨nondebugStatuses_of_normal jobs hnorm, by simp, ?_,
    by simp [debugStatuses], ?_⟩
  · simp
  · simp [debugStatuses, debugStep]

theorem one_outcome_per_job_witness :
    nondebugStatuses [(⟨"a", 0⟩, [], ⟨some 0, true⟩), (⟨"b", 1⟩, [0], ⟨some 7, true⟩)] =
      some (([(⟨"a", 0⟩, [], ⟨some 0, true⟩), (⟨"b", 1⟩, [0], ⟨some 7, true⟩)] :
          List (Task × List Nat × ExecEnv)).map
        fun p => (p.1.name, p.2.2.runResult.getD 0)) ∧
    (([(⟨"a", 0⟩, [], ⟨some 0, true⟩), (⟨"b", 1⟩, [0], ⟨some 7, true⟩)] :
        List (Task × List Nat × ExecEnv)).map
      fun p => (p.1.name, p.2.2.runResult.getD 0)).length =
      ([(⟨"a", 0⟩, [], ⟨some 0, true⟩), (⟨"b", 1⟩, [0], ⟨some 7, true⟩)] :
        List (Task × List Nat × ExecEnv)).length ∧
    (([(⟨"a", 0⟩, [], ⟨some 0, true⟩), (⟨"b", 1⟩, [0], ⟨some 7, true⟩)] :
        List (Task × List Nat × ExecEnv)).map
      fun p => (p.1.name, p.2.2.runResult.getD 0)).map Prod.fst =
      (([(⟨"a", 0⟩, [], ⟨some 0, true⟩), (⟨"b", 1⟩, [0], ⟨some 7, true⟩)] :
        List (Task × List Nat × ExecEnv)).map fun p => p.1.name) ∧
    (debugStatuses [(⟨"c", 0⟩, ⟨"python run", 5⟩)]).length =
      ([(⟨"c", 0⟩, ⟨"python run", 5⟩)] : List (Task × DebugEnv)).length ∧
    (debugStatuses [(⟨"c", 0⟩, ⟨"python run", 5⟩)]).map Prod.fst =
      (([(⟨"c", 0⟩, ⟨"python run", 5⟩)] : List (Task × DebugEnv)).map
        fun p => p.1.name) :=
  one_outcome_per_job
    [(⟨"a", 0⟩, [], ⟨some 0, true⟩), (⟨"b", 1⟩, [0], ⟨some 7, true⟩)]
    (by decide) [(⟨"c", 0⟩, ⟨"python run", 5⟩)]

/-- One step of the left-to-right scan implementing the regex search of
`re.findall(r'(?<!-)\d+', value)`: the state is the previous character, the
digits of the match in progress, and the completed matches.  A digit extends
the match in progress; a digit with no match in progress starts one unless the
previous character is a minus sign (the negative lookbehind, which blocks only
that one starting position); a non-digit flushes any match in progress. -/
def findStep (st : Option Char × List Char × List (List Char)) (c : Char) :
    Option Char × List Char × List (List Char) :=
  let (prev, acc, out) := st
  if c.isDigit then
    if acc.isEmpty then
      if prev = some '-' then (some c, [], out)
      else (some c, [c], out)
    else (some c, acc ++ [c], out)
  else (some c, [], if acc.isEmpty then out else out ++ [acc])

/-- Flush the match still in progress at the end of the input. -/
def findFinish (st : Option Char × List Char × List (List Char)) :
    List (List Char) :=
  if st.2.1.isEmpty then st.2.2 else st.2.2 ++ [st.2.1]

/-- All matches of `(?<!-)\d+` in the input, left to right. -/
def findMatches (s : List Char) : List (List Char) :=
  findFinish (s.foldl findStep (none, [], []))

/-- The behaviour the claim describes, spec-worded for comparison: the maximal
digit runs of the input that are not immediately preceded by a minus sign.  A
digit preceded by a digit continues the current maximal run (an excluded run
stays excluded to its end); a digit starting a run is excluded exactly when
the previous character is a minus sign. -/
def claimStep (st : Option Char × List Char × List (List Char)) (c : Char) :
    Option Char × List Char × List (List Char) :=
  let (prev, acc, out) := st
  if c.isDigit then
    if (prev.map Char.isDigit).getD false then
      (some c, if acc.isEmpty then [] else acc ++ [c], out)
    else if prev = some '-' then (some c, [], out)
    else (some c, [c], out)
  else (some c, [], if acc.isEmpty then out else out ++ [acc])

/-- The maximal digit runs not immediately preceded by a minus sign. -/
def claimMatches (s : List Char) : List (List Char) :=
  findFinish (s.foldl claimStep (none, [], []))

/-- `int(m)` on a matched digit string. -/
def digitsToNat (l : List Char) : Nat :=
  l.foldl (fun a c => 10 * a + (c.toNat - 48)) 0

/-- `all_gpu_ids` as parsed from a set visibility value:
`[int(i) for i in re.findall(r'(?<!-)\d+', value)]`. -/
def parseVisible (s : List Char) : List Nat :=
  (findMatches s).map digitsToNat

/-- The claim's reading of the same parse. -/
def claimedVisible (s : List Char) : List Nat :=
  (claimMatches s).map digitsToNat

/-- The resource inventory: parse the visibility variable when it is set in
the environment, else `list(range(torch.cuda.device_count()))`. -/
def allGpuIds (cuda_visible_devices : Option (List Char)) (device_count : Nat) :
    List Nat :=
  match cuda_visible_devices with
  | some s => parseVisible s
  | none => List.range device_count

/-- Claim C9 counterexample: on the value "-12" the code's regex blocks only
the lookbehind-excluded first digit and still matches the remaining digits of
the run, yielding id 2, whereas the claim's reading — digit runs not
immediately preceded by a minus sign — yields no id at all. -/
theorem parse_visible_cex :
    allGpuIds (some ['-', '1', '2']) 4 = [2] ∧
    claimedVisible ['-', '1', '2'] = [] ∧
    parseVisible ['-', '1', '2'] ≠ claimedVisible ['-', '1', '2'] := by
  decide

/-- The maximal digit run at the head of the input, and the rest. -/
def takeDigits : List Char → List Char × List Char
  | [] => ([], [])
  | c :: cs =>
    if c.isDigit then (c :: (takeDigits cs).1, (takeDigits cs).2)
    else ([], c :: cs)

lemma takeDigits_rest_length (l : List Char) : (takeDigits l).2.length ≤ l.length := by
  induction l with
  | nil => simp [takeDigits]
  | cons c cs ih =>
    by_cases hc : c.isDigit
    · simp only [takeDigits, hc, if_true]
      exact le_trans ih (Nat.le_succ _)
    · simp [takeDigits, hc]

lemma takeDigits_rest_head (l : List Char) :
    (takeDigits l).2 = [] ∨
    ∃ e es, (takeDigits l).2 = e :: es ∧ e.isDigit = false := by
  induction l with
  | nil => left; rfl
  | cons c cs ih =>
    by_cases hc : c.isDigit
    · simpa only [takeDigits, hc, if_true] using ih
    · right
      refine ⟨c, cs, ?_, by simpa using hc⟩
      simp [takeDigits, hc]

/-- The maximal digit runs of the input, each tagged with whether its first
digit is immediately preceded by a minus sign; `prev` is the character before
the remaining input, if any. -/
def digitRuns (prev : Option Char) : List Char → List (Bool × List Char)
  | [] => []
  | c :: cs =>
    if c.isDigit then
      (decide (prev = some '-'), c :: (takeDigits cs).1) ::
        digitRuns ((takeDigits cs).1.foldl (fun _ x => some x) (some c))
          (takeDigits cs).2
    else digitRuns (some c) cs
termination_by l => l.length
decreasing_by
  · have := takeDigits_rest_length cs
    simp only [List.length_cons]
    omega
  · simp

/-- The ids the amended claim assigns to one tagged run: a run not preceded by
a minus sign counts whole; a run preceded by a minus sign loses only its
first, lookbehind-blocked digit, the remaining digits (if any) still forming
one id. -/
def runContrib (r : Bool × List Char) : List (List Char) :=
  if r.1 then (if r.2.tail.isEmpty then [] else [r.2.tail]) else [r.2]

/-- The matches predicted by the amended reading of the claim. -/
def amendedMatches (s : List Char) : List (List Char) :=
  (digitRuns none s).flatMap runContrib

lemma digitRuns_nil (prev : Option Char) : digitRuns prev [] = [] := by
  rw [digitRuns]

lemma digitRuns_cons_digit (prev : Option Char) (c : Char) (cs : List Char)
    (hc : c.isDigit = true) :
    digitRuns prev (c :: cs) =
      (decide (prev = some '-'), c :: (takeDigits cs).1) ::
        digitRuns ((takeDigits cs).1.foldl (fun _ x => some x) (some c))
          (takeDigits cs).2 := by
  rw [digitRuns]
  simp [hc]

lemma digitRuns_cons_nondigit (prev : Option Char) (c : Char) (cs : List Char)
    (hc : c.isDigit = false) :
    digitRuns prev (c :: cs) = digitRuns (some c) cs := by
  rw [digitRuns]
  simp [hc]

lemma isDigit_ne_minus {c : Char} (hc : c.isDigit = true) :
    some c ≠ some '-' := by
  intro h
  rw [Option.some_inj] at h
  subst h
  simp [Char.isDigit] at hc

lemma findStep_out (cs : List Char) : ∀ (prev : Option Char) (acc : List Char)
    (out : List (List Char)),
    List.foldl findStep (prev, acc, out) cs =
      ((List.foldl findStep (prev, acc, []) cs).1,
        (List.foldl findStep (prev, acc, []) cs).2.1,
        out ++ (List.foldl findStep (prev, acc, []) cs).2.2) := by
  induction cs with
  | nil =>
    intro prev acc out
    simp
  | cons c cs ih =>
    intro prev acc out
    rw [List.foldl_cons, List.foldl_cons]
    by_cases hc : c.isDigit
    · rcases acc with _ | ⟨a, as⟩
      · by_cases hm : prev = some '-'
        · simp only [findStep, hc, hm, if_true, List.isEmpty_nil]
          exact ih _ _ _
        · simp only [findStep, hc, hm, if_true, if_false, List.isEmpty_nil]
          exact ih _ _ _
      · simp only [findStep, hc, if_true, List.isEmpty_cons]
        exact ih _ _ _
    · rcases acc with _ | ⟨a, as⟩
      · simp only [findStep, hc, if_false, List.isEmpty_nil]
        exact ih _ _ _
      · have h1 := ih (some c) [] (out ++ [a :: as])
        have h2 := ih (some c) [] ([] ++ [a :: as])
        simp only [findStep, hc, List.isEmpty_cons, Bool.false_eq_true, if_false]
        rw [h1, h2]
        simp [List.append_assoc]

lemma findStep_run (cs : List Char) : ∀ (prev : Option Char) (a : Char)
    (as : List Char) (out : List (List Char)),
    List.foldl findStep (prev, a :: as, out) cs =
      List.foldl findStep
        ((takeDigits cs).1.foldl (fun _ x => some x) prev,
          (a :: as) ++ (takeDigits cs).1, out) (takeDigits cs).2 := by
  induction cs with
  | nil =>
    intro prev a as out
    simp [takeDigits]
  | cons c cs ih =>
    intro prev a as out
    by_cases hc : c.isDigit
    · rw [List.foldl_cons]
      have hstep : findStep (prev, a :: as, out) c = (some c, (a :: as) ++ [c], out) := by
        simp [findStep, hc]
      rw [hstep]
      have hrw : (a :: as) ++ [c] = a :: (as ++ [c]) := rfl
      rw [hrw, ih]
      simp only [takeDigits, hc, if_true, List.foldl_cons]
      simp [List.append_assoc]
    · simp [takeDigits, hc]

lemma findFinish_out (cs : List Char) (prev : Option Char)
    (out : List (List Char)) :
    findFinish (List.foldl findStep (prev, [], out) cs) =
      out ++ findFinish (List.foldl findStep (prev, [], []) cs) := by
  rw [findStep_out]
  unfold findFinish
  by_cases h : (List.foldl findStep (prev, [], []) cs).2.1.isEmpty
  · simp [h]
  · simp [h, List.append_assoc]


lemma findMatches_eq_amended_aux (n : Nat) : ∀ (s : List Char), s.length ≤ n →
    ∀ (prev : Option Char),
    findFinish (List.foldl findStep (prev, [], []) s) =
      (digitRuns prev s).flatMap runContrib := by
  induction n with
  | zero =>
    intro s hs prev
    have hnil : s = [] := List.length_eq_zero.mp (Nat.le_zero.mp hs)
    subst hnil
    simp [findFinish, digitRuns_nil]
  | succ n ih =>
    intro s hs prev
    rcases s with _ | ⟨c, cs⟩
    · simp [findFinish, digitRuns_nil]
    · have hcs_len : cs.length ≤ n := by
        simp only [List.length_cons] at hs
        omega
      by_cases hc : c.isDigit
      · rw [List.foldl_cons, digitRuns_cons_digit prev c cs hc]
        by_cases hm : prev = some '-'
        · -- the run is immediately preceded by a minus: its first digit is
          -- blocked by the lookbehind
          have hstep : findStep (prev, [], []) c = (some c, [], []) := by
            simp [findStep, hc, hm]
          rw [hstep]
          rcases cs with _ | ⟨d, cs'⟩
          · simp [findFinish, takeDigits, digitRuns_nil, runContrib, hm]
          · have hcs'_len : cs'.length ≤ n := by
              simp only [List.length_cons] at hcs_len
              omega
            by_cases hd : d.isDigit
            · -- the run continues: the scan restarts one position later
              rw [List.foldl_cons]
              have hstep2 : findStep (some c, [], []) d = (some d, [d], []) := by
                simp [findStep, hd, isDigit_ne_minus hc]
              rw [hstep2, findStep_run cs' (some d) d [] []]
              have htd : takeDigits (d :: cs') =
                  (d :: (takeDigits cs').1, (takeDigits cs').2) := by
                simp [takeDigits, hd]
              rcases takeDigits_rest_head cs' with hrest | ⟨e, es, hrest, he⟩
              · rw [hrest, htd]
                simp [findFinish, runContrib, hm, digitRuns_nil, hrest]
              · have hes_len : es.length ≤ n := by
                  have hr := takeDigits_rest_length cs'
                  rw [hrest] at hr
                  simp only [List.length_cons] at hr
                  omega
                rw [hrest, List.foldl_cons]
                have hstep3 : findStep
                    ((takeDigits cs').1.foldl (fun _ x => some x) (some d),
                      [d] ++ (takeDigits cs').1, []) e =
                    (some e, [], [[d] ++ (takeDigits cs').1]) := by
                  simp [findStep, he]
                rw [hstep3, findFinish_out, ih es hes_len (some e), htd]
                dsimp only
                rw [hrest, digitRuns_cons_nondigit _ e es he]
                simp [runContrib, hm]
            · -- the run was a single blocked digit: nothing is matched
              rw [List.foldl_cons]
              have hstep2 : findStep (some c, [], []) d = (some d, [], []) := by
                simp [findStep, hd]
              have htd : takeDigits (d :: cs') = ([], d :: cs') := by
                simp [takeDigits, hd]
              rw [hstep2, htd, ih cs' hcs'_len (some d)]
              dsimp only [List.foldl_nil]
              rw [digitRuns_cons_nondigit (some c) d cs' (by simpa using hd)]
              simp [runContrib, hm]
        · -- the run is kept whole
          have hstep : findStep (prev, [], []) c = (some c, [c], []) := by
            simp [findStep, hc, hm]
          rw [hstep, findStep_run cs (some c) c [] []]
          rcases takeDigits_rest_head cs with hrest | ⟨e, es, hrest, he⟩
          · rw [hrest]
            simp [findFinish, runContrib, hm, digitRuns_nil, hrest]
          · have hes_len : es.length ≤ n := by
              have hr := takeDigits_rest_length cs
              rw [hrest] at hr
              simp only [List.length_cons] at hr
              omega
            rw [hrest, List.foldl_cons]
            have hstep3 : findStep
                ((takeDigits cs).1.foldl (fun _ x => some x) (some c),
                  [c] ++ (takeDigits cs).1, []) e =
                (some e, [], [[c] ++ (takeDigits cs).1]) := by
              simp [findStep, he]
            rw [hstep3, findFinish_out, ih es hes_len (some e)]
            rw [digitRuns_cons_nondigit _ e es he]
            simp [runContrib, hm]
      · rw [List.foldl_cons]
        have hstep : findStep (prev, [], []) c = (some c, [], []) := by
          simp [findStep, hc]
        rw [hstep, digitRuns_cons_nondigit prev c cs (by simpa using hc)]
        exact ih cs hcs_len (some c)

/-- Claim C9 amended: when the visibility variable is set, discovery yields
the integers obtained from the maximal digit runs of its value as follows: a
run not immediately preceded by a minus sign is taken whole as one id; a run
immediately preceded by a minus sign loses only its lookbehind-blocked first
digit, the remaining digits (if any) still forming one id (so "-12" yields 2
and "-1" yields nothing).  When the variable is absent, the inventory is the
ids 0 through d-1 for the runtime's reported device count d. -/
theorem inventory_discovery_amended (s : List Char) (d : Nat) :
    allGpuIds (some s) d = (amendedMatches s).map digitsToNat ∧
    allGpuIds none d = List.range d := by
  refine ⟨?_, rfl⟩
  show (findMatches s).map digitsToNat = _
  rw [findMatches, amendedMatches,
    findMatches_eq_amended_aux s.length s le_rfl none]

end LocalRunner
